import Mathlib

/-!
Verification development for the postgresstore session store
(src/postgresstore/postgresstore.go).

The store keeps session records (token, data, expiry) in one SQL table.
We shallowly embed the package:

* the table state is a list of rows; the database engine's evaluation of
  the four SQL statement shapes the store issues (SELECT with expiry
  filter, INSERT .. ON CONFLICT upsert, DELETE by token, DELETE by expiry
  cutoff) is given directly as Lean functions on that list, with the
  database server time passed explicitly as an integer timestamp;
* a possible driver-level failure of the single database call each
  operation performs is passed in as an explicit fault argument, since
  the Go code only branches on the returned err value;
* the query strings are rebuilt character for character from the
  fmt.Sprintf calls in the source;
* the cleanup goroutine, its unbuffered stop channel and StopCleanup are
  modelled as a small labelled transition system whose transitions are
  read off the Go select statement and Go channel semantics.
-/

/-- Bytes of a session payload (Go []byte), modelled as a list of byte
values. The store treats the payload as opaque. -/
abbrev Bytes := List Nat

/-- One row of the sessions table: token (primary key), data, expiry
timestamp. Timestamps are integers; comparisons mirror the SQL
current_timestamp < expiry filter. -/
structure Row where
  token : String
  data : Bytes
  expiry : Int
deriving DecidableEq, Repr

/-- The sessions table state, as seen by the database engine. -/
abbrev DB := List Row

/-- Error value returned by a database call: either the driver signalled
sql.ErrNoRows, or some other driver-level failure carrying a message. -/
inductive DbErr where
  | noRows : DbErr
  | failure (msg : String) : DbErr
deriving DecidableEq, Repr

/-- Configuration block of the store (struct storeOptions); the
cleanupInterval is a Go time.Duration in nanoseconds. -/
structure storeOptions where
  sessionTableName : String
  tokenColumnName : String
  dataColumnName : String
  expiryColumnName : String
  cleanupInterval : Int
deriving DecidableEq, Repr

/-- The package-level defaultOptions value (postgresstore.go lines
17-23): table "sessions", columns "token"/"data"/"expiry", cleanup
interval 5 * time.Minute = 300000000000 ns. -/
def defaultOptions : storeOptions :=
  { sessionTableName := "sessions"
    tokenColumnName := "token"
    dataColumnName := "data"
    expiryColumnName := "expiry"
    cleanupInterval := 5 * 60 * 1000000000 }

/-- New (lines 27-44): applies the option functions in order to a copy of
defaultOptions, then spawns the cleanup goroutine iff
opts.cleanupInterval > 0. Returns the final options together with
whether the goroutine was spawned. -/
def New (options : List (storeOptions → storeOptions)) : storeOptions × Bool :=
  let storeOpts := options.foldl (fun acc opt => opt acc) defaultOptions
  (storeOpts, decide (0 < storeOpts.cleanupInterval))

/-- A value bound as a query parameter ($1, $2, ...) of a statement. -/
inductive SqlValue where
  | str (v : String) : SqlValue
  | bytes (v : Bytes) : SqlValue
  | time (v : Int) : SqlValue
deriving DecidableEq, Repr

/-- Query text built by Find (line 58-61):
"SELECT %s FROM %s WHERE %s = $1 AND current_timestamp < %s" with the
data column, table, token column and expiry column interpolated. -/
def findQuery (o : storeOptions) : String :=
  "SELECT " ++ o.dataColumnName ++ " FROM " ++ o.sessionTableName ++
    " WHERE " ++ o.tokenColumnName ++ " = $1 AND current_timestamp < " ++
    o.expiryColumnName

/-- Query text built by Commit (lines 75-80):
"INSERT INTO %s (%s, %s, %s) VALUES ($1, $2, $3) ON CONFLICT (%s) DO
UPDATE SET %s = EXCLUDED.%s, %s = EXCLUDED.%s". -/
def commitQuery (o : storeOptions) : String :=
  "INSERT INTO " ++ o.sessionTableName ++ " (" ++ o.tokenColumnName ++
    ", " ++ o.dataColumnName ++ ", " ++ o.expiryColumnName ++
    ") VALUES ($1, $2, $3) ON CONFLICT (" ++ o.tokenColumnName ++
    ") DO UPDATE SET " ++ o.dataColumnName ++ " = EXCLUDED." ++
    o.dataColumnName ++ ", " ++ o.expiryColumnName ++ " = EXCLUDED." ++
    o.expiryColumnName

/-- Query text built by Delete (lines 90-93):
"DELETE FROM %s WHERE %s = $1". -/
def deleteQuery (o : storeOptions) : String :=
  "DELETE FROM " ++ o.sessionTableName ++ " WHERE " ++
    o.tokenColumnName ++ " = $1"

/-- Query text built by All (lines 100-103):
"SELECT %s, %s FROM %s WHERE current_timestamp < %s". -/
def allQuery (o : storeOptions) : String :=
  "SELECT " ++ o.tokenColumnName ++ ", " ++ o.dataColumnName ++
    " FROM " ++ o.sessionTableName ++ " WHERE current_timestamp < " ++
    o.expiryColumnName

/-- Query text built by deleteExpired (lines 167-170):
"DELETE FROM %s WHERE %s < current_timestamp". -/
def deleteExpiredQuery (o : storeOptions) : String :=
  "DELETE FROM " ++ o.sessionTableName ++ " WHERE " ++
    o.expiryColumnName ++ " < current_timestamp"

/-- The wire call Find issues: its query text and bound parameters
(the token is passed as $1, never interpolated). -/
def findCall (o : storeOptions) (token : String) : String × List SqlValue :=
  (findQuery o, [SqlValue.str token])

/-- The wire call Commit issues: query text plus token, payload and
expiry bound as $1, $2, $3. -/
def commitCall (o : storeOptions) (token : String) (b : Bytes) (expiry : Int) :
    String × List SqlValue :=
  (commitQuery o, [SqlValue.str token, SqlValue.bytes b, SqlValue.time expiry])

/-- The wire call Delete issues: query text plus the token bound as $1. -/
def deleteCall (o : storeOptions) (token : String) : String × List SqlValue :=
  (deleteQuery o, [SqlValue.str token])

/-- The wire call All issues: query text, no bound parameters. -/
def allCall (o : storeOptions) : String × List SqlValue :=
  (allQuery o, [])

/-- The wire call deleteExpired issues: query text, no bound parameters. -/
def deleteExpiredCall (o : storeOptions) : String × List SqlValue :=
  (deleteExpiredQuery o, [])

/-- Database evaluation of the Find SELECT: the row whose token column
equals the bound token and whose expiry is strictly later than the
database server time now. With token as primary key at most one row
matches; on a list state this is the first match. -/
def selectActive (db : DB) (now : Int) (token : String) : Option Row :=
  db.find? (fun r => r.token == token && decide (now < r.expiry))

/-- Result of db.QueryRow(...).Scan(&b) for the Find query: a driver
fault is returned verbatim; otherwise sql.ErrNoRows when no active row
matches, or the data column of the matching row. -/
def runFindQuery (db : DB) (now : Int) (token : String) (fault : Option String) :
    Except DbErr Bytes :=
  match fault with
  | some msg => Except.error (DbErr.failure msg)
  | none =>
    match selectActive db now token with
    | some r => Except.ok r.data
    | none => Except.error DbErr.noRows

/-- Find (lines 57-69): scans the single-row query result; maps
sql.ErrNoRows to (nil, false, nil), any other error to
(nil, false, err), and a scanned payload to (b, true, nil). -/
def Find (db : DB) (now : Int) (token : String) (fault : Option String) :
    Option Bytes × Bool × Option DbErr :=
  match runFindQuery db now token fault with
  | Except.error DbErr.noRows => (none, false, none)
  | Except.error e => (none, false, some e)
  | Except.ok b => (some b, true, none)

/-- Database evaluation of the Commit upsert (INSERT .. ON CONFLICT
(token) DO UPDATE SET data = EXCLUDED.data, expiry = EXCLUDED.expiry):
if a row with the token exists its data and expiry are both replaced,
otherwise a new row is appended. -/
def upsert (db : DB) (token : String) (b : Bytes) (expiry : Int) : DB :=
  if db.any (fun r => r.token == token) then
    db.map (fun r => if r.token == token then ⟨token, b, expiry⟩ else r)
  else
    db ++ [⟨token, b, expiry⟩]

/-- Commit (lines 74-85): executes the upsert; a driver fault is
returned verbatim, otherwise the new table state with a nil error. -/
def Commit (db : DB) (token : String) (b : Bytes) (expiry : Int)
    (fault : Option String) : Except DbErr DB :=
  match fault with
  | some msg => Except.error (DbErr.failure msg)
  | none => Except.ok (upsert db token b expiry)

/-- Database evaluation of the Delete statement: every row whose token
column equals the bound token is removed. -/
def deleteRows (db : DB) (token : String) : DB :=
  db.filter (fun r => !(r.token == token))

/-- Delete (lines 89-95): executes the delete and returns the driver
error verbatim; with no fault the error is nil whether or not any row
matched. -/
def Delete (db : DB) (token : String) (fault : Option String) : Except DbErr DB :=
  match fault with
  | some msg => Except.error (DbErr.failure msg)
  | none => Except.ok (deleteRows db token)

/-- Rows returned by the All SELECT: exactly those whose expiry is
strictly later than database server time now. -/
def activeRows (db : DB) (now : Int) : DB :=
  db.filter (fun r => decide (now < r.expiry))

/-- Go map assignment sessions[token] = data on an association-list
model of the map: replace the binding if the key is present, otherwise
append it. -/
def mapAssign (m : List (String × Bytes)) (k : String) (v : Bytes) :
    List (String × Bytes) :=
  if m.any (fun p => p.1 == k) then
    m.map (fun p => if p.1 == k then (k, v) else p)
  else
    m ++ [(k, v)]

/-- The map built by the rows.Next loop of All (lines 109-123): starts
from the empty map and assigns data under token for each returned row. -/
def allMap (db : DB) (now : Int) : List (String × Bytes) :=
  (activeRows db now).foldl (fun m r => mapAssign m r.token r.data) []

/-- All (lines 99-131): a driver fault is returned verbatim, otherwise
the map of all active rows with a nil error (the empty map when no row
is active). -/
def All (db : DB) (now : Int) (fault : Option String) :
    Except DbErr (List (String × Bytes)) :=
  match fault with
  | some msg => Except.error (DbErr.failure msg)
  | none => Except.ok (allMap db now)

/-- Control state of the cleanup goroutine spawned by New. notStarted:
the goroutine has not yet reached the for/select loop (or was never
spawned); selecting: blocked in the select on ticker.C and stopCleanup
(lines 136-147); exited: returned after receiving a stop value. -/
inductive LoopState where
  | notStarted : LoopState
  | selecting : LoopState
  | exited : LoopState
deriving DecidableEq, Repr

/-- Global state of one store instance's cleanup machinery: whether New
spawned the goroutine (cleanupInterval > 0), whether the goroutine has
executed p.stopCleanup = make(chan bool) (line 134), the goroutine's
control state, how many StopCleanup callers are currently blocked in the
send p.stopCleanup <- true (the channel is unbuffered, so a sender
blocks until the loop receives), how many stop values the loop has
consumed, and how many deleteExpired errors have been logged. -/
structure CleanupSys where
  spawned : Bool
  chanMade : Bool
  loop : LoopState
  blocked : Nat
  stopsConsumed : Nat
  errorsLogged : Nat
deriving DecidableEq, Repr

/-- State right after New returns (lines 39-41): the goroutine is
spawned iff the configured cleanup interval is strictly positive; the
stopCleanup field is still nil and nothing has run yet. -/
def initSys (cleanupInterval : Int) : CleanupSys :=
  { spawned := decide (0 < cleanupInterval)
    chanMade := false
    loop := LoopState.notStarted
    blocked := 0
    stopsConsumed := 0
    errorsLogged := 0 }

/-- Interleaving steps of the cleanup goroutine and StopCleanup callers,
read off the Go source and Go channel semantics.
enterLoop: the spawned goroutine makes the stop channel and enters the
select (lines 134-137). tickOk: the ticker fires and deleteExpired
succeeds; the loop stays in the select (lines 138-142). tickErr: the
ticker fires, deleteExpired fails, the error is logged and the loop
stays in the select. stopSend: a StopCleanup caller sees a non-nil
channel and blocks in the unbuffered send (lines 161-162). stopRecv:
the selecting loop receives a pending stop value, unblocking that
sender, stops the ticker and returns (lines 143-145). StopCleanup with
a nil channel returns at once without touching any shared state, so it
contributes no transition. -/
inductive CleanupStep : CleanupSys → CleanupSys → Prop where
  | enterLoop (s : CleanupSys) :
      s.spawned = true → s.loop = LoopState.notStarted →
      CleanupStep s { s with chanMade := true, loop := LoopState.selecting }
  | tickOk (s : CleanupSys) :
      s.loop = LoopState.selecting →
      CleanupStep s s
  | tickErr (s : CleanupSys) :
      s.loop = LoopState.selecting →
      CleanupStep s { s with errorsLogged := s.errorsLogged + 1 }
  | stopSend (s : CleanupSys) :
      s.chanMade = true →
      CleanupStep s { s with blocked := s.blocked + 1 }
  | stopRecv (s : CleanupSys) :
      s.loop = LoopState.selecting → 0 < s.blocked →
      CleanupStep s { s with loop := LoopState.exited,
                             blocked := s.blocked - 1,
                             stopsConsumed := s.stopsConsumed + 1 }

/-- Zero or more interleaving steps. -/
abbrev ReachFrom (s t : CleanupSys) : Prop :=
  Relation.ReflTransGen CleanupStep s t

/-- The StopCleanup caller counted in blocked can never return: along
every continuation of the run at least one sender stays blocked in the
channel send. -/
def StuckStopper (s : CleanupSys) : Prop :=
  0 < s.blocked ∧ ∀ t, ReachFrom s t → 0 < t.blocked

/-- Formalisation of the safety part of the claim that StopCleanup never
deadlocks or hangs: in no state reachable from any initial configuration
is a StopCleanup caller blocked forever. -/
def noStopperEverStuck : Prop :=
  ∀ interval s, ReachFrom (initSys interval) s → ¬ StuckStopper s

/-- Whether a StopCleanup call performs a channel send (line 161: only
when p.stopCleanup is non-nil); otherwise it is a no-op return. -/
def stopCleanupSends (s : CleanupSys) : Bool :=
  s.chanMade

/-! Helper lemmas about the embedded operations. -/

lemma upsert_pos (db : DB) (t : String) (b : Bytes) (e : Int)
    (h : db.any (fun r => r.token == t) = true) :
    upsert db t b e = db.map (fun r => if r.token == t then ⟨t, b, e⟩ else r) := by
  unfold upsert
  rw [if_pos h]

lemma upsert_neg (db : DB) (t : String) (b : Bytes) (e : Int)
    (h : db.any (fun r => r.token == t) = false) :
    upsert db t b e = db ++ [⟨t, b, e⟩] := by
  unfold upsert
  rw [if_neg (by simp [h])]

lemma selectActive_eq_none (db : DB) (now : Int) (t : String)
    (h : ∀ r ∈ db, r.token = t → r.expiry ≤ now) :
    selectActive db now t = none := by
  unfold selectActive
  rw [List.find?_eq_none]
  intro r hr
  by_cases htok : r.token = t
  · have hexp := h r hr htok
    simp only [htok, beq_self_eq_true, Bool.true_and, decide_eq_true_eq]
    omega
  · simp [htok]

lemma find?_upsert_map_of_ge (t : String) (b : Bytes) (e now : Int) (h : ¬ now < e)
    (db : DB) :
    List.find? (fun r => r.token == t && decide (now < r.expiry))
      (db.map fun r => if r.token == t then ⟨t, b, e⟩ else r) = none := by
  induction db with
  | nil => rfl
  | cons r rest ih =>
    cases hb : (r.token == t) with
    | true =>
      rw [List.map_cons, if_pos hb, List.find?_cons_of_neg _ (by simp [h]), ih]
    | false =>
      rw [List.map_cons, if_neg (by simp [hb]), List.find?_cons_of_neg _ (by simp [hb]), ih]

lemma find?_upsert_map_of_lt (t : String) (b : Bytes) (e now : Int) (h : now < e) :
    ∀ db : DB, db.any (fun r => r.token == t) = true →
      List.find? (fun r => r.token == t && decide (now < r.expiry))
        (db.map fun r => if r.token == t then ⟨t, b, e⟩ else r) = some ⟨t, b, e⟩ := by
  intro db
  induction db with
  | nil => intro hany; simp at hany
  | cons r rest ih =>
    intro hany
    cases hb : (r.token == t) with
    | true =>
      rw [List.map_cons, if_pos hb]
      exact List.find?_cons_of_pos _ (by simp [h])
    | false =>
      rw [List.map_cons, if_neg (by simp [hb]), List.find?_cons_of_neg _ (by simp [hb])]
      apply ih
      simpa [hb] using hany

lemma find?_eq_none_of_any_false (t : String) (now : Int) (db : DB)
    (h : db.any (fun r => r.token == t) = false) :
    List.find? (fun r => r.token == t && decide (now < r.expiry)) db = none := by
  rw [List.find?_eq_none]
  intro r hr
  have := List.any_eq_false.mp h r hr
  simp_all

lemma selectActive_upsert_self (db : DB) (t : String) (b : Bytes) (e now : Int) :
    selectActive (upsert db t b e) now t =
      if now < e then some ⟨t, b, e⟩ else none := by
  by_cases hany : db.any (fun r => r.token == t) = true
  · rw [upsert_pos db t b e hany]
    unfold selectActive
    by_cases hlt : now < e
    · rw [if_pos hlt]
      exact find?_upsert_map_of_lt t b e now hlt db hany
    · rw [if_neg hlt]
      exact find?_upsert_map_of_ge t b e now hlt db
  · have hf : db.any (fun r => r.token == t) = false := by simpa using hany
    rw [upsert_neg db t b e hf]
    unfold selectActive
    rw [List.find?_append, find?_eq_none_of_any_false t now db hf]
    by_cases hlt : now < e
    · rw [if_pos hlt]
      simp [hlt]
    · rw [if_neg hlt]
      simp [hlt]

lemma self_mem_upsert (db : DB) (t : String) (b : Bytes) (e : Int) :
    (⟨t, b, e⟩ : Row) ∈ upsert db t b e := by
  by_cases hany : db.any (fun r => r.token == t) = true
  · rw [upsert_pos db t b e hany]
    obtain ⟨r, hr, htok⟩ := List.any_eq_true.mp hany
    have hfr : (if r.token == t then (⟨t, b, e⟩ : Row) else r) = ⟨t, b, e⟩ :=
      if_pos htok
    exact List.mem_map.mpr ⟨r, hr, hfr⟩
  · rw [upsert_neg db t b e (by simpa using hany)]
    simp

lemma mem_upsert_token (db : DB) (t : String) (b : Bytes) (e : Int) (r' : Row)
    (h : r' ∈ upsert db t b e) (ht : r'.token = t) : r' = ⟨t, b, e⟩ := by
  by_cases hany : db.any (fun r => r.token == t) = true
  · rw [upsert_pos db t b e hany] at h
    obtain ⟨r, hr, hfr⟩ := List.mem_map.mp h
    by_cases htok : (r.token == t) = true
    · rw [if_pos htok] at hfr
      exact hfr.symm
    · rw [if_neg htok] at hfr
      rw [← hfr] at ht
      have hX : (r.token == t) = true := by simp [ht]
      exact absurd hX htok
  · have hf : db.any (fun r => r.token == t) = false := by simpa using hany
    rw [upsert_neg db t b e hf] at h
    rcases List.mem_append.mp h with h1 | h2
    · have hne := List.any_eq_false.mp hf r' h1
      simp only [beq_iff_eq] at hne
      exact absurd ht hne
    · simpa using h2

lemma any_token_upsert (db : DB) (t : String) (b : Bytes) (e : Int) :
    (upsert db t b e).any (fun r => r.token == t) = true :=
  List.any_eq_true.mpr ⟨⟨t, b, e⟩, self_mem_upsert db t b e, by simp⟩

lemma map_replace_id (t : String) (b : Bytes) (e : Int) (db : DB)
    (h : db.any (fun r => r.token == t) = false) :
    db.map (fun r => if r.token == t then ⟨t, b, e⟩ else r) = db := by
  have hall := List.any_eq_false.mp h
  calc db.map (fun r => if r.token == t then ⟨t, b, e⟩ else r)
      = db.map id := by
        apply List.map_congr_left
        intro r hr
        rw [if_neg (by simpa using hall r hr)]
        rfl
    _ = db := List.map_id db

lemma upsert_upsert (db : DB) (t : String) (b1 : Bytes) (e1 : Int) (b2 : Bytes)
    (e2 : Int) :
    upsert (upsert db t b1 e1) t b2 e2 = upsert db t b2 e2 := by
  by_cases hany : db.any (fun r => r.token == t) = true
  · have hany2 := any_token_upsert db t b1 e1
    rw [upsert_pos db t b1 e1 hany] at hany2
    rw [upsert_pos db t b1 e1 hany, upsert_pos _ t b2 e2 hany2,
        upsert_pos db t b2 e2 hany, List.map_map]
    apply List.map_congr_left
    intro r hr
    by_cases htok : (r.token == t) = true
    · simp only [Function.comp_apply]
      rw [if_pos htok, if_pos (by simp), if_pos htok]
    · simp only [Function.comp_apply]
      rw [if_neg htok, if_neg htok]
  · have hf : db.any (fun r => r.token == t) = false := by simpa using hany
    have hany2 := any_token_upsert db t b1 e1
    rw [upsert_neg db t b1 e1 hf] at hany2
    rw [upsert_neg db t b1 e1 hf, upsert_pos _ t b2 e2 hany2,
        upsert_neg db t b2 e2 hf, List.map_append, map_replace_id t b2 e2 db hf]
    simp

lemma selectActive_deleteRows (db : DB) (t : String) (now : Int) :
    selectActive (deleteRows db t) now t = none := by
  unfold selectActive deleteRows
  rw [List.find?_eq_none]
  intro r hr
  have := (List.mem_filter.mp hr).2
  simp_all

lemma bool_eq_false {b : Bool} (h : ¬ b = true) : b = false := by
  cases b
  · rfl
  · exact absurd rfl h

lemma mapAssign_pos (m : List (String × Bytes)) (k : String) (v : Bytes)
    (h : m.any (fun p => p.1 == k) = true) :
    mapAssign m k v = m.map (fun p => if p.1 == k then (k, v) else p) := by
  unfold mapAssign
  rw [if_pos h]

lemma mapAssign_neg (m : List (String × Bytes)) (k : String) (v : Bytes)
    (h : m.any (fun p => p.1 == k) = false) :
    mapAssign m k v = m ++ [(k, v)] := by
  unfold mapAssign
  rw [if_neg (by simp [h])]

lemma mem_mapAssign (m : List (String × Bytes)) (k : String) (v : Bytes)
    (q : String × Bytes) (h : q ∈ mapAssign m k v) : q ∈ m ∨ q = (k, v) := by
  by_cases hany : m.any (fun p => p.1 == k) = true
  · rw [mapAssign_pos m k v hany] at h
    obtain ⟨p, hp, hfp⟩ := List.mem_map.mp h
    by_cases hk : (p.1 == k) = true
    · rw [if_pos hk] at hfp
      exact Or.inr hfp.symm
    · rw [if_neg hk] at hfp
      exact Or.inl (hfp ▸ hp)
  · rw [mapAssign_neg m k v (bool_eq_false hany)] at h
    rcases List.mem_append.mp h with h1 | h2
    · exact Or.inl h1
    · exact Or.inr (by simpa using h2)

lemma mem_foldl_assign (rows : DB) : ∀ (acc : List (String × Bytes))
    (q : String × Bytes),
    q ∈ rows.foldl (fun m r => mapAssign m r.token r.data) acc →
    q ∈ acc ∨ ∃ r ∈ rows, q = (r.token, r.data) := by
  induction rows with
  | nil =>
    intro acc q h
    exact Or.inl (by simpa using h)
  | cons r rest ih =>
    intro acc q h
    simp only [List.foldl_cons] at h
    rcases ih _ q h with h1 | ⟨x, hx, hq⟩
    · rcases mem_mapAssign _ _ _ _ h1 with h3 | h4
      · exact Or.inl h3
      · exact Or.inr ⟨r, List.mem_cons_self r rest, h4⟩
    · exact Or.inr ⟨x, List.mem_cons_of_mem r hx, hq⟩

lemma keyMem_mapAssign_self (m : List (String × Bytes)) (k : String) (v : Bytes) :
    ∃ w, (k, w) ∈ mapAssign m k v := by
  by_cases hany : m.any (fun p => p.1 == k) = true
  · rw [mapAssign_pos m k v hany]
    obtain ⟨p, hp, hpk⟩ := List.any_eq_true.mp hany
    refine ⟨v, List.mem_map.mpr ⟨p, hp, ?_⟩⟩
    exact if_pos hpk
  · rw [mapAssign_neg m k v (bool_eq_false hany)]
    exact ⟨v, by simp⟩

lemma keyMem_mapAssign_mono (m : List (String × Bytes)) (k : String) (v : Bytes)
    (k' : String) (h : ∃ w, (k', w) ∈ m) : ∃ w, (k', w) ∈ mapAssign m k v := by
  by_cases hk : k' = k
  · subst hk
    exact keyMem_mapAssign_self m k' v
  · obtain ⟨w, hw⟩ := h
    by_cases hany : m.any (fun p => p.1 == k) = true
    · rw [mapAssign_pos m k v hany]
      refine ⟨w, List.mem_map.mpr ⟨(k', w), hw, ?_⟩⟩
      exact if_neg (by simp [hk])
    · rw [mapAssign_neg m k v (bool_eq_false hany)]
      exact ⟨w, List.mem_append_left _ hw⟩

lemma keyMem_foldl_mono (rows : DB) : ∀ (acc : List (String × Bytes)) (k : String),
    (∃ w, (k, w) ∈ acc) →
    ∃ w, (k, w) ∈ rows.foldl (fun m r => mapAssign m r.token r.data) acc := by
  induction rows with
  | nil =>
    intro acc k h
    simpa using h
  | cons r rest ih =>
    intro acc k h
    simp only [List.foldl_cons]
    exact ih _ k (keyMem_mapAssign_mono _ _ _ _ h)

lemma keyMem_foldl_of_mem (rows : DB) : ∀ (acc : List (String × Bytes)) (r : Row),
    r ∈ rows →
    ∃ w, (r.token, w) ∈ rows.foldl (fun m x => mapAssign m x.token x.data) acc := by
  induction rows with
  | nil =>
    intro acc r h
    simp at h
  | cons x rest ih =>
    intro acc r h
    simp only [List.foldl_cons]
    rcases List.mem_cons.mp h with h1 | h2
    · subst h1
      exact keyMem_foldl_mono rest _ _ (keyMem_mapAssign_self acc r.token r.data)
    · exact ih _ r h2

lemma keys_map_replace (k : String) (v : Bytes) (m : List (String × Bytes)) :
    (m.map (fun p => if p.1 == k then (k, v) else p)).map Prod.fst =
      m.map Prod.fst := by
  rw [List.map_map]
  apply List.map_congr_left
  intro p hp
  by_cases hk : (p.1 == k) = true
  · simp only [Function.comp_apply]
    rw [if_pos hk]
    exact (beq_iff_eq.mp hk).symm
  · simp only [Function.comp_apply]
    rw [if_neg hk]

lemma nodup_keys_mapAssign (m : List (String × Bytes)) (k : String) (v : Bytes)
    (h : (m.map Prod.fst).Nodup) : ((mapAssign m k v).map Prod.fst).Nodup := by
  by_cases hany : m.any (fun p => p.1 == k) = true
  · rw [mapAssign_pos m k v hany, keys_map_replace]
    exact h
  · have hf : m.any (fun p => p.1 == k) = false := bool_eq_false hany
    rw [mapAssign_neg m k v hf, List.map_append]
    rw [List.nodup_append]
    refine ⟨h, by simp, ?_⟩
    intro a ha hb
    have hak : a = k := by simpa using hb
    subst hak
    obtain ⟨p, hp, hpk⟩ := List.mem_map.mp ha
    have hne := List.any_eq_false.mp hf p hp
    simp only [beq_iff_eq] at hne
    exact hne hpk

lemma nodup_keys_foldl (rows : DB) : ∀ (acc : List (String × Bytes)),
    (acc.map Prod.fst).Nodup →
    ((rows.foldl (fun m r => mapAssign m r.token r.data) acc).map Prod.fst).Nodup := by
  induction rows with
  | nil =>
    intro acc h
    simpa using h
  | cons r rest ih =>
    intro acc h
    simp only [List.foldl_cons]
    exact ih _ (nodup_keys_mapAssign _ _ _ h)

lemma mem_allMap (db : DB) (now : Int) (t : String) (d : Bytes)
    (h : (t, d) ∈ allMap db now) :
    ∃ r ∈ activeRows db now, r.token = t ∧ r.data = d := by
  unfold allMap at h
  rcases mem_foldl_assign _ _ _ h with h0 | ⟨r, hr, heq⟩
  · simp at h0
  · injection heq with h1 h2
    exact ⟨r, hr, h1.symm, h2.symm⟩

lemma keyMem_allMap (db : DB) (now : Int) (r : Row) (h : r ∈ activeRows db now) :
    ∃ w, (r.token, w) ∈ allMap db now :=
  keyMem_foldl_of_mem _ [] r h

/-! Invariants of the cleanup transition system. -/

lemma step_exited {s t : CleanupSys} (h : CleanupStep s t)
    (he : s.loop = LoopState.exited) :
    t.loop = LoopState.exited ∧ s.blocked ≤ t.blocked := by
  cases h with
  | enterLoop hsp hl =>
    rw [hl] at he
    exact absurd he (by decide)
  | tickOk hl =>
    exact ⟨he, Nat.le_refl _⟩
  | tickErr hl =>
    rw [hl] at he
    exact absurd he (by decide)
  | stopSend hc =>
    exact ⟨he, Nat.le_succ _⟩
  | stopRecv hl hb =>
    rw [hl] at he
    exact absurd he (by decide)

lemma reach_exited {s t : CleanupSys} (h : ReachFrom s t)
    (he : s.loop = LoopState.exited) :
    t.loop = LoopState.exited ∧ s.blocked ≤ t.blocked := by
  induction h with
  | refl => exact ⟨he, Nat.le_refl _⟩
  | tail h1 h2 ih =>
    obtain ⟨hl, hb⟩ := ih
    obtain ⟨hl2, hb2⟩ := step_exited h2 hl
    exact ⟨hl2, Nat.le_trans hb hb2⟩

lemma stuck_of_exited (s : CleanupSys) (he : s.loop = LoopState.exited)
    (hb : 0 < s.blocked) : StuckStopper s := by
  refine ⟨hb, ?_⟩
  intro t ht
  obtain ⟨_, hble⟩ := reach_exited ht he
  omega

lemma step_nospawn {s t : CleanupSys} (h : CleanupStep s t)
    (hsp : s.spawned = false) (hc : s.chanMade = false) :
    t.spawned = false ∧ t.chanMade = false := by
  cases h with
  | enterLoop hsp2 hl =>
    rw [hsp2] at hsp
    exact absurd hsp (by decide)
  | tickOk hl => exact ⟨hsp, hc⟩
  | tickErr hl => exact ⟨hsp, hc⟩
  | stopSend hc2 =>
    rw [hc2] at hc
    exact absurd hc (by decide)
  | stopRecv hl hb => exact ⟨hsp, hc⟩

lemma reach_nospawn {s t : CleanupSys} (h : ReachFrom s t)
    (hsp : s.spawned = false) (hc : s.chanMade = false) :
    t.spawned = false ∧ t.chanMade = false := by
  induction h with
  | refl => exact ⟨hsp, hc⟩
  | tail h1 h2 ih => exact step_nospawn h2 ih.1 ih.2

lemma step_consumed {s t : CleanupSys} (h : CleanupStep s t)
    (hinv : s.stopsConsumed ≤ 1 ∧
      (s.loop ≠ LoopState.exited → s.stopsConsumed = 0)) :
    t.stopsConsumed ≤ 1 ∧
      (t.loop ≠ LoopState.exited → t.stopsConsumed = 0) := by
  cases h with
  | enterLoop hsp hl =>
    refine ⟨hinv.1, fun _ => hinv.2 ?_⟩
    rw [hl]
    decide
  | tickOk hl => exact hinv
  | tickErr hl => exact hinv
  | stopSend hc => exact hinv
  | stopRecv hl hb =>
    have h0 : s.stopsConsumed = 0 := hinv.2 (by rw [hl]; decide)
    refine ⟨?_, fun hne => absurd rfl hne⟩
    show s.stopsConsumed + 1 ≤ 1
    omega

lemma reach_consumed {s t : CleanupSys} (h : ReachFrom s t)
    (hinv : s.stopsConsumed ≤ 1 ∧
      (s.loop ≠ LoopState.exited → s.stopsConsumed = 0)) :
    t.stopsConsumed ≤ 1 ∧
      (t.loop ≠ LoopState.exited → t.stopsConsumed = 0) := by
  induction h with
  | refl => exact hinv
  | tail h1 h2 ih => exact step_consumed h2 ih

/-! Claim theorems. -/

/-- C1: for every token, Find returns exists=false with a nil error when
no active row matches (the token was never committed or its record is
expired), and surfaces any underlying query failure as a non-nil error
with exists=false. -/
theorem claimC1 : ∀ (db : DB) (now : Int) (t : String),
    ((∀ r ∈ db, r.token = t → r.expiry ≤ now) →
      Find db now t none = (none, false, none)) ∧
    (∀ msg, Find db now t (some msg) = (none, false, some (DbErr.failure msg))) := by
  intro db now t
  refine ⟨?_, fun msg => rfl⟩
  intro h
  unfold Find runFindQuery
  rw [selectActive_eq_none db now t h]

/-- C1 witness: an expired record is reported as absence with a nil
error, and a driver failure is surfaced as the error. -/
theorem claimC1_witness :
    Find [⟨"a", [1], 3⟩] 5 "a" none = (none, false, none) ∧
    Find [] 0 "zz" (some "boom") = (none, false, some (DbErr.failure "boom")) :=
  ⟨(claimC1 [⟨"a", [1], 3⟩] 5 "a").1 (by decide),
   (claimC1 [] 0 "zz").2 "boom"⟩

/-- C2: a committed record is visible to Find exactly when its expiry is
strictly in the future at query evaluation time, and it is a key of the
All map exactly under the same strict condition; in particular a record
committed with expiry in the past (or equal to now) is immediately
invisible to both reads. -/
theorem claimC2 : ∀ (db : DB) (now : Int) (t : String) (b : Bytes) (e : Int),
    Find (upsert db t b e) now t none =
      (if now < e then (some b, true, none) else (none, false, none)) ∧
    ((∃ d, (t, d) ∈ allMap (upsert db t b e) now) ↔ now < e) := by
  intro db now t b e
  constructor
  · unfold Find runFindQuery
    rw [selectActive_upsert_self]
    by_cases h : now < e
    · rw [if_pos h, if_pos h]
    · rw [if_neg h, if_neg h]
  · constructor
    · rintro ⟨d, hd⟩
      obtain ⟨r, hr, htok, hdat⟩ := mem_allMap _ _ _ _ hd
      have hmf := List.mem_filter.mp hr
      have hre : r = ⟨t, b, e⟩ := mem_upsert_token db t b e r hmf.1 htok
      have hdec := hmf.2
      rw [hre] at hdec
      simpa using hdec
    · intro h
      have hact : (⟨t, b, e⟩ : Row) ∈ activeRows (upsert db t b e) now :=
        List.mem_filter.mpr ⟨self_mem_upsert db t b e, by simpa using h⟩
      obtain ⟨w, hw⟩ := keyMem_allMap _ _ _ hact
      exact ⟨w, hw⟩

/-- C2 witness: a record committed already expired (expiry equal to now,
so not strictly in the future) is invisible to Find and All at once. -/
theorem claimC2_witness :
    Find (upsert [] "x" [9] 5) 5 "x" none = (none, false, none) ∧
    ¬ (∃ d, (("x" : String), d) ∈ allMap (upsert [] "x" [9] 5) 5) := by
  constructor
  · have h := (claimC2 [] 5 "x" [9] 5).1
    rw [if_neg (by omega : ¬ (5:Int) < 5)] at h
    exact h
  · intro hex
    exact absurd ((claimC2 [] 5 "x" [9] 5).2.mp hex) (by omega)

/-- C3: Commit upserts with a nil error, a second commit of the same
token fully overwrites payload and expiry together (so two commits
collapse to the last one; with identical arguments this is idempotence),
and after the second commit Find retrieves only the latest payload. -/
theorem claimC3 : ∀ (db : DB) (t : String) (b1 : Bytes) (e1 : Int)
    (b2 : Bytes) (e2 now : Int),
    Commit db t b2 e2 none = Except.ok (upsert db t b2 e2) ∧
    upsert (upsert db t b1 e1) t b2 e2 = upsert db t b2 e2 ∧
    (now < e2 →
      Find (upsert (upsert db t b1 e1) t b2 e2) now t none =
        (some b2, true, none)) := by
  intro db t b1 e1 b2 e2 now
  refine ⟨rfl, upsert_upsert db t b1 e1 b2 e2, ?_⟩
  intro h
  unfold Find runFindQuery
  rw [selectActive_upsert_self, if_pos h]

/-- C3 witness: committing token s twice with different payloads leaves
only the second payload retrievable. -/
theorem claimC3_witness :
    (5:Int) < 9 ∧
    Find (upsert (upsert [] "s" [1] 9) "s" [2] 9) 5 "s" none =
      (some [2], true, none) :=
  ⟨by omega, (claimC3 [] "s" [1] 9 [2] 9 5).2.2 (by omega)⟩

/-- C4: All with no fault returns a nil error and the map of exactly the
active rows: its keys are unique, a pair (t, d) is in the map iff an
active row with token t and data d is in the table (given the schema's
token uniqueness), and when nothing is active the result is the empty
map, not an error. -/
theorem claimC4 : ∀ (db : DB) (now : Int),
    All db now none = Except.ok (allMap db now) ∧
    ((allMap db now).map Prod.fst).Nodup ∧
    ((∀ r ∈ db, r.expiry ≤ now) → allMap db now = []) ∧
    (db.Pairwise (fun a b => a.token ≠ b.token) →
      ∀ (t : String) (d : Bytes),
        (t, d) ∈ allMap db now ↔
          ∃ r ∈ db, r.token = t ∧ r.data = d ∧ now < r.expiry) := by
  intro db now
  refine ⟨rfl, nodup_keys_foldl _ _ (by simp), ?_, ?_⟩
  · intro h
    unfold allMap activeRows
    have hnil : db.filter (fun r => decide (now < r.expiry)) = [] := by
      rw [List.filter_eq_nil_iff]
      intro r hr
      have := h r hr
      simp only [decide_eq_true_eq]
      omega
    rw [hnil]
    rfl
  · intro hpw t d
    constructor
    · intro hmem
      obtain ⟨r, hr, htok, hdat⟩ := mem_allMap db now t d hmem
      have hmf := List.mem_filter.mp hr
      refine ⟨r, hmf.1, htok, hdat, ?_⟩
      have := hmf.2
      simpa using this
    · rintro ⟨r, hr, htok, hdat, hexp⟩
      have hact : r ∈ activeRows db now :=
        List.mem_filter.mpr ⟨hr, by simpa using hexp⟩
      obtain ⟨w, hw⟩ := keyMem_allMap db now r hact
      obtain ⟨r2, hr2, htok2, hdat2⟩ := mem_allMap db now r.token w hw
      have hr2db := (List.mem_filter.mp hr2).1
      have hsym : Symmetric (fun a b : Row => a.token ≠ b.token) :=
        fun a b hab hba => hab hba.symm
      have hrr : r2 = r := by
        by_contra hne
        exact (List.Pairwise.forall hsym hpw hr2db hr hne) htok2
      have hwd : w = d := by
        rw [hrr] at hdat2
        rw [← hdat2, hdat]
      rw [htok, hwd] at hw
      exact hw

/-- C4 witness: with one active and one expired row, All returns the map
with a nil error; the expired-only table yields the empty map; and
membership matches the active-row condition at a concrete pair. -/
theorem claimC4_witness :
    All [⟨"a", [1], 10⟩, ⟨"b", [2], 0⟩] 5 none =
      Except.ok (allMap [⟨"a", [1], 10⟩, ⟨"b", [2], 0⟩] 5) ∧
    allMap [⟨"x", [9], 0⟩] 5 = [] ∧
    ((("a" : String), ([1] : Bytes)) ∈ allMap [⟨"a", [1], 10⟩, ⟨"b", [2], 0⟩] 5 ↔
      ∃ r ∈ ([⟨"a", [1], 10⟩, ⟨"b", [2], 0⟩] : DB),
        r.token = "a" ∧ r.data = [1] ∧ (5:Int) < r.expiry) :=
  ⟨(claimC4 [⟨"a", [1], 10⟩, ⟨"b", [2], 0⟩] 5).1,
   (claimC4 [⟨"x", [9], 0⟩] 5).2.2.1 (by decide),
   (claimC4 [⟨"a", [1], 10⟩, ⟨"b", [2], 0⟩] 5).2.2.2 (by decide) "a" [1]⟩

/-- C5: Delete removes every row of the token and returns a nil error
whether or not the token was present, and a Find of the same token right
after the delete reports absence. -/
theorem claimC5 : ∀ (db : DB) (t : String) (now : Int),
    Delete db t none = Except.ok (deleteRows db t) ∧
    Find (deleteRows db t) now t none = (none, false, none) := by
  intro db t now
  refine ⟨rfl, ?_⟩
  unfold Find runFindQuery
  rw [selectActive_deleteRows]

/-- C6 counterexample: the claim that StopCleanup can be called more
than once without ever hanging is false. After the loop has consumed the
first stop and exited (lines 143-145 run once and return), a second
StopCleanup call reaches the send on the unbuffered channel (line 162)
and, the loop being gone, no receiver can ever match it: the run shown
here reaches a state in which that caller is blocked forever. -/
theorem claimC6_counterexample : ¬ noStopperEverStuck := by
  intro h
  have st1 : CleanupStep (initSys 1) ⟨true, true, LoopState.selecting, 0, 0, 0⟩ :=
    CleanupStep.enterLoop (initSys 1) (by decide) (by decide)
  have st2 : CleanupStep ⟨true, true, LoopState.selecting, 0, 0, 0⟩
      ⟨true, true, LoopState.selecting, 1, 0, 0⟩ :=
    CleanupStep.stopSend _ rfl
  have st3 : CleanupStep ⟨true, true, LoopState.selecting, 1, 0, 0⟩
      ⟨true, true, LoopState.exited, 0, 1, 0⟩ :=
    CleanupStep.stopRecv _ rfl (by decide)
  have st4 : CleanupStep ⟨true, true, LoopState.exited, 0, 1, 0⟩
      ⟨true, true, LoopState.exited, 1, 1, 0⟩ :=
    CleanupStep.stopSend _ rfl
  have hreach : ReachFrom (initSys 1) ⟨true, true, LoopState.exited, 1, 1, 0⟩ :=
    Relation.ReflTransGen.tail
      (Relation.ReflTransGen.tail
        (Relation.ReflTransGen.tail (Relation.ReflTransGen.single st1) st2) st3) st4
  exact h 1 _ hreach (stuck_of_exited _ rfl (by decide))

/-- C6 amended: StopCleanup is a no-op when no cleanup loop was ever
started (cleanupInterval configured as 0 or negative, so the goroutine
is never spawned and the channel stays nil), and the loop consumes at
most one stop delivery before it exits; however a StopCleanup call that
reaches the unbuffered send after the loop has exited blocks forever,
so calling StopCleanup more than once hangs the second call. -/
theorem claimC6_amended :
    (∀ (interval : Int) (s : CleanupSys), interval ≤ 0 →
        ReachFrom (initSys interval) s → stopCleanupSends s = false) ∧
    (∀ (interval : Int) (s : CleanupSys),
        ReachFrom (initSys interval) s → s.stopsConsumed ≤ 1) ∧
    (∀ s : CleanupSys, s.loop = LoopState.exited → 0 < s.blocked →
        StuckStopper s) := by
  refine ⟨?_, ?_, stuck_of_exited⟩
  · intro interval s hle hreach
    have hsp : (initSys interval).spawned = false := by
      rw [show (initSys interval).spawned = decide (0 < interval) from rfl,
        decide_eq_false_iff_not]
      omega
    exact (reach_nospawn hreach hsp rfl).2
  · intro interval s hreach
    exact (reach_consumed hreach ⟨Nat.zero_le 1, fun _ => rfl⟩).1

/-- C6 witness: with interval 0 the initial state never sends on the
channel; the initial state has consumed no stop; and the concrete
post-exit state with one pending sender is stuck. -/
theorem claimC6_witness :
    stopCleanupSends (initSys 0) = false ∧
    (initSys 1).stopsConsumed ≤ 1 ∧
    StuckStopper ⟨true, true, LoopState.exited, 1, 1, 0⟩ :=
  ⟨claimC6_amended.1 0 (initSys 0) (by decide) Relation.ReflTransGen.refl,
   claimC6_amended.2.1 1 (initSys 1) Relation.ReflTransGen.refl,
   claimC6_amended.2.2 _ rfl (by decide)⟩

/-- C7: when the ticker fires and deleteExpired fails, the loop takes a
step that only increments the count of logged errors: no field a caller
could observe an error through changes, the loop is back in the select
afterwards, and from there the next tick can fire (and fail) again. -/
theorem claimC7 : ∀ s : CleanupSys, s.loop = LoopState.selecting →
    CleanupStep s { s with errorsLogged := s.errorsLogged + 1 } ∧
    ({ s with errorsLogged := s.errorsLogged + 1 }).loop = LoopState.selecting ∧
    CleanupStep { s with errorsLogged := s.errorsLogged + 1 }
      { s with errorsLogged := s.errorsLogged + 2 } := by
  intro s h
  exact ⟨CleanupStep.tickErr s h, h,
    CleanupStep.tickErr { s with errorsLogged := s.errorsLogged + 1 } h⟩

/-- C7 witness: a selecting state takes two consecutive failing ticks,
staying in the select both times. -/
theorem claimC7_witness :
    CleanupStep ⟨true, true, LoopState.selecting, 0, 0, 0⟩
      ⟨true, true, LoopState.selecting, 0, 0, 1⟩ ∧
    CleanupStep ⟨true, true, LoopState.selecting, 0, 0, 1⟩
      ⟨true, true, LoopState.selecting, 0, 0, 2⟩ := by
  have h := claimC7 ⟨true, true, LoopState.selecting, 0, 0, 0⟩ rfl
  exact ⟨h.1, h.2.2⟩

/-- C8: the cleanup goroutine is spawned iff the configured interval is
strictly positive, an interval of zero yields no goroutine, the default
interval is 5 minutes (300000000000 ns), and New with no options uses
the defaults (and so does spawn the goroutine). -/
theorem claimC8 :
    (∀ options, ((New options).2 = true ↔ 0 < (New options).1.cleanupInterval)) ∧
    (∀ options, (New options).1.cleanupInterval = 0 → (New options).2 = false) ∧
    (∀ i : Int, (initSys i).spawned = decide (0 < i)) ∧
    defaultOptions.cleanupInterval = 5 * 60 * 1000000000 ∧
    New [] = (defaultOptions, true) := by
  refine ⟨?_, ?_, fun i => rfl, rfl, rfl⟩
  · intro options
    exact ⟨of_decide_eq_true, fun h => decide_eq_true h⟩
  · intro options h
    have heq : (New options).2 = decide (0 < (New options).1.cleanupInterval) := rfl
    rw [heq, h]
    rfl

/-- C8 witness: overriding the interval to 0 disables the spawn, while
the default configuration spawns. -/
theorem claimC8_witness :
    (New [fun o => { o with cleanupInterval := 0 }]).2 = false ∧
    (New []).2 = true :=
  ⟨claimC8.2.1 [fun o => { o with cleanupInterval := 0 }] rfl,
   by rw [claimC8.2.2.2.2]⟩

/-- C9: for a fixed configuration the query text sent by Find, Commit,
Delete and deleteExpired does not depend on the token, payload or expiry
arguments, which are passed only in the bound-parameter list. -/
theorem claimC9 : ∀ (o : storeOptions) (t1 t2 : String) (b1 b2 : Bytes)
    (e1 e2 : Int),
    (findCall o t1).1 = (findCall o t2).1 ∧
    (commitCall o t1 b1 e1).1 = (commitCall o t2 b2 e2).1 ∧
    (deleteCall o t1).1 = (deleteCall o t2).1 ∧
    (findCall o t1).2 = [SqlValue.str t1] ∧
    (commitCall o t1 b1 e1).2 =
      [SqlValue.str t1, SqlValue.bytes b1, SqlValue.time e1] ∧
    (deleteCall o t1).2 = [SqlValue.str t1] ∧
    (deleteExpiredCall o).2 = [] := by
  intro o t1 t2 b1 b2 e1 e2
  exact ⟨rfl, rfl, rfl, rfl, rfl, rfl, rfl⟩

/-- C10: whenever Find reports exists=false the returned payload is nil,
and a non-nil payload comes only with exists=true and a nil error. -/
theorem claimC10 : ∀ (db : DB) (now : Int) (t : String) (fault : Option String),
    ((Find db now t fault).2.1 = false → (Find db now t fault).1 = none) ∧
    ((Find db now t fault).1 ≠ none →
      (Find db now t fault).2.1 = true ∧ (Find db now t fault).2.2 = none) := by
  intro db now t fault
  unfold Find runFindQuery
  cases fault with
  | some msg => simp
  | none =>
    cases h : selectActive db now t with
    | some r => simp [h]
    | none => simp [h]

/-- C10 witness: at an empty table the payload is nil, and at a table
with a hit the non-nil payload comes with exists=true and a nil error. -/
theorem claimC10_witness :
    (Find [] 0 "a" none).1 = none ∧
    ((Find [⟨"a", [7], 9⟩] 0 "a" none).2.1 = true ∧
      (Find [⟨"a", [7], 9⟩] 0 "a" none).2.2 = none) :=
  ⟨(claimC10 [] 0 "a" none).1 (by decide),
   (claimC10 [⟨"a", [7], 9⟩] 0 "a" none).2 (by decide)⟩
